import Mathlib

/-!
# acmeproxy: connection routing and relay engine

A shallow embedding of `plugins/acmeproxy/proxy.go`.

The Go code is effectful (sockets, goroutines, a logger).  Each function is
embedded as a pure function from the answers its collaborators give (what
`Accept`, `NextError`, `Listen`, `Handshake`, `DialTimeout` and `io.Copy`
return) to the sequence of observable events it performs, in program order.
`joinConnections` starts two goroutines and waits for them, so it is embedded
as a small-step machine driven by an arbitrary schedule.
-/

namespace AcmeProxy

/-! ## Data model -/

/-- The `tls.Config` built by `addFrontend`: certificates come from the
`GetCertificate` method of the embedded `autocert.Manager` (identified by a
number) and the advertised protocols are `NextProtos`. -/
structure TlsConfig where
  getCertificate : Nat
  nextProtos : List String
  deriving DecidableEq, Repr

/-- A non-nil `net.Conn`: an accepted or dialed socket, or the wrapper that
`tls.Server` builds around a connection. -/
inductive Conn
  | raw (id : Nat)
  | tlsServer (inner : Conn) (cfg : TlsConfig)
  deriving DecidableEq, Repr

/-- Go `error` values that the code tells apart with type assertions. -/
inductive GoError
  | vhostClosed (msg : String)
  | vhostBadRequest (msg : String)
  | vhostNotFound (msg : String)
  | netError (temporary : Bool) (msg : String)
  | other (msg : String)
  deriving DecidableEq, Repr

/-- The test `_, ok := err.(vhost.Closed)` on a possibly nil `error`. -/
def isVhostClosed : Option GoError → Bool
  | some (GoError.vhostClosed _) => true
  | _ => false

/-- The test `e, ok := err.(net.Error)` followed by `e.Temporary()`. -/
def isTemporaryNetError : GoError → Bool
  | GoError.netError temporary _ => temporary
  | _ => false

/-- What `net.DialTimeout` returns. -/
inductive DialResult
  | connected (upConn : Conn)
  | failed (err : GoError)
  deriving DecidableEq, Repr

/-- What `io.Copy` returns: bytes written and the error, nil on end-of-stream. -/
structure CopyResult where
  n : Nat
  err : Option GoError
  deriving DecidableEq, Repr

/-- The calls to `s.Printf`, one constructor per call site, with the values
passed for the format verbs. -/
inductive LogEntry
  | muxFailed (err : Option GoError)
  | acceptFailed (remoteAddrOf : Conn)
  | dialFailed (backend : String) (err : GoError)
  | copyFailed (srcRemoteAddrOf dstRemoteAddrOf : Conn) (n : Nat) (err : GoError)
  deriving DecidableEq, Repr

/-- Observable actions, recorded in program order. -/
inductive Event
  | log (entry : LogEntry)
  | nextErrorCall
  | acceptCall (listener : Nat)
  | goProxyConnection (c : Option Conn) (tlsConfig : Option TlsConfig)
  | handshake (tlsc : Conn) (result : Option GoError)
  | dial (network address : String) (timeoutMs : Nat) (result : DialResult)
  | close (c : Conn)
  | joinConnections (c1 c2 : Conn)
  | copyDone (dst src : Conn) (result : CopyResult)
  | joinReturned (c1 c2 : Conn)
  deriving DecidableEq, Repr

/-- How a loop that runs in its own goroutine ends on a finite script of
answers: it returns, it panics, or it is parked in the blocking call once the
script is used up. -/
inductive LoopEnd
  | returned
  | panicked
  | blocked
  deriving DecidableEq, Repr

/-- The network as seen by one connection handler. -/
structure NetEnv where
  handshake : Conn → Option GoError
  dialTimeout : String → String → Nat → DialResult
  copy : Conn → Conn → CopyResult

/-- The constant `defaultConnectTimeout`, in milliseconds. -/
def defaultConnectTimeout : Nat := 10000

/-- The connections that `c.Close()` shuts: `c` itself and, for a
`tls.Server` wrapper, the transport below it (`tls.Conn.Close` closes the
underlying connection). -/
def Conn.closes : Conn → List Conn
  | Conn.raw id => [Conn.raw id]
  | Conn.tlsServer inner cfg => Conn.tlsServer inner cfg :: inner.closes

/-! ## `proxyConnection` (lines 104-127) -/

/-- `ProxyServer.proxyConnection`: the returned `err` and the events. -/
def proxyConnection (env : NetEnv) (c : Conn) (tlsConfig : Option TlsConfig) :
    Option GoError × List Event :=
  let start : Conn × String × List Event :=
    match tlsConfig with
    | some cfg =>
      let tlsc := Conn.tlsServer c cfg
      (tlsc, "localhost:80", [Event.handshake tlsc (env.handshake tlsc)])
    | none => (c, "localhost:443", [])
  let c := start.1
  let backend := start.2.1
  let result := env.dialTimeout "tcp" backend defaultConnectTimeout
  let dialed := start.2.2 ++ [Event.dial "tcp" backend defaultConnectTimeout result]
  match result with
  | DialResult.failed err =>
    (some err, dialed ++ [Event.log (LogEntry.dialFailed backend err), Event.close c])
  | DialResult.connected upConn =>
    (none, dialed ++ [Event.joinConnections c upConn])

/-- The addresses passed to `net.DialTimeout`, in order. -/
def dialedAddresses : List Event → List String
  | [] => []
  | Event.dial _ address _ _ :: rest => address :: dialedAddresses rest
  | _ :: rest => dialedAddresses rest

/-- The argument pairs of the calls to `joinConnections`, in order. -/
def joinCalls : List Event → List (Conn × Conn)
  | [] => []
  | Event.joinConnections c1 c2 :: rest => (c1, c2) :: joinCalls rest
  | _ :: rest => joinCalls rest

/-- The connections on which a TLS handshake was run, in order. -/
def handshakes : List Event → List Conn
  | [] => []
  | Event.handshake tlsc _ :: rest => tlsc :: handshakes rest
  | _ :: rest => handshakes rest

/-- The connections shut by the `Close` calls of a trace. -/
def closedConns : List Event → List Conn
  | [] => []
  | Event.close c :: rest => c.closes ++ closedConns rest
  | _ :: rest => closedConns rest

/-- The log entries written, in order. -/
def logEntries : List Event → List LogEntry
  | [] => []
  | Event.log entry :: rest => entry :: logEntries rest
  | _ :: rest => logEntries rest

/-! ## `runFrontend` (lines 84-102) -/

/-- One answer of `l.Accept()`: the pair `(conn, err)`. -/
structure AcceptResult where
  conn : Option Conn
  err : Option GoError
  deriving DecidableEq, Repr

/-- A `net.Listener` handed out by the demultiplexer: an identity and the
answers its successive `Accept` calls give. -/
structure Listener where
  id : Nat
  accepts : List AcceptResult
  deriving DecidableEq, Repr

/-- The `for` loop of `runFrontend` over the answers of `Accept`.  In the error
branch the arguments of `s.Printf` are evaluated first: `conn.RemoteAddr()`
on a nil `net.Conn` is a nil dereference. -/
def acceptLoop (lid : Nat) (tlsConfig : Option TlsConfig) :
    List AcceptResult → LoopEnd × List Event
  | [] => (LoopEnd.blocked, [Event.acceptCall lid])
  | r :: rest =>
    match r.err with
    | some err =>
      match r.conn with
      | none => (LoopEnd.panicked, [Event.acceptCall lid])
      | some conn =>
        if isTemporaryNetError err then
          let tail := acceptLoop lid tlsConfig rest
          (tail.1, Event.acceptCall lid :: Event.log (LogEntry.acceptFailed conn) :: tail.2)
        else
          (LoopEnd.returned, [Event.acceptCall lid, Event.log (LogEntry.acceptFailed conn)])
    | none =>
      let tail := acceptLoop lid tlsConfig rest
      (tail.1, Event.acceptCall lid :: Event.goProxyConnection r.conn tlsConfig :: tail.2)

/-- `ProxyServer.runFrontend`. -/
def runFrontend (_name : String) (tlsConfig : Option TlsConfig) (l : Listener) :
    LoopEnd × List Event :=
  acceptLoop l.id tlsConfig l.accepts

/-- Number of `Accept` calls made on listener `lid`. -/
def acceptCalls (lid : Nat) : List Event → Nat
  | [] => 0
  | Event.acceptCall k :: rest => (if k = lid then 1 else 0) + acceptCalls lid rest
  | _ :: rest => acceptCalls lid rest

/-- The connections handed to `go s.proxyConnection`, in order. -/
def dispatched : List Event → List (Option Conn)
  | [] => []
  | Event.goProxyConnection c _ :: rest => c :: dispatched rest
  | _ :: rest => dispatched rest

/-! ## `addFrontend` (lines 65-82) -/

/-- What `s.mux.Listen(name)` returns. -/
inductive ListenResult
  | listening (fl : Listener)
  | failed (err : GoError)
  deriving DecidableEq, Repr

/-- The parts of `ProxyServer` that `addFrontend` reads: the embedded
`autocert.Manager` and the `Listen` method of the muxer. -/
structure ProxyServer where
  manager : Nat
  muxListen : String → ListenResult

/-- A goroutine started with `go s.runFrontend(name, tlsConfig, l)`. -/
structure GoRunFrontend where
  name : String
  tlsConfig : Option TlsConfig
  l : Listener
  deriving DecidableEq, Repr

/-- `ProxyServer.addFrontend`: the returned `err` and the goroutines started. -/
def addFrontend (s : ProxyServer) (name : String) (passthrough : Bool) :
    Option GoError × List GoRunFrontend :=
  match s.muxListen name with
  | ListenResult.failed err => (some err, [])
  | ListenResult.listening fl =>
    if passthrough then
      (none, [GoRunFrontend.mk name none fl])
    else
      let tlsconfig : TlsConfig := TlsConfig.mk s.manager ["http/1.1"]
      (none, [GoRunFrontend.mk name (some tlsconfig) fl])

/-! ## The error handler started by `Run` (lines 41-55) -/

/-- One answer of `s.mux.NextError()`: the pair `(conn, err)`. -/
structure MuxError where
  conn : Option Conn
  err : Option GoError
  deriving DecidableEq, Repr

/-- The goroutine `go func() { for { ... } }()` of `Run`, over the answers
of `NextError`. -/
def errorHandler : List MuxError → LoopEnd × List Event
  | [] => (LoopEnd.blocked, [Event.nextErrorCall])
  | r :: rest =>
    match r.conn with
    | none =>
      if isVhostClosed r.err then
        (LoopEnd.returned, [Event.nextErrorCall, Event.log (LogEntry.muxFailed r.err)])
      else
        let tail := errorHandler rest
        (tail.1, Event.nextErrorCall :: Event.log (LogEntry.muxFailed r.err) :: tail.2)
    | some _ =>
      let tail := errorHandler rest
      (tail.1, Event.nextErrorCall :: tail.2)

/-- The answers that the go-vhost muxer behind `s.mux` gives through
`NextError`: the closed error is sent by its accept loop alone, without a
connection (`sendError(nil, Closed ...)`); the failures that carry a
connection are bad requests, unknown hosts and the like. -/
def MuxError.fromMuxer (r : MuxError) : Bool :=
  !isVhostClosed r.err || r.conn.isNone

/-- Number of `NextError` calls made. -/
def nextErrorCalls : List Event → Nat
  | [] => 0
  | Event.nextErrorCall :: rest => 1 + nextErrorCalls rest
  | _ :: rest => nextErrorCalls rest

/-! ## `joinConnections` (lines 129-145) -/

/-- The three goroutines of one `joinConnections` call: the caller, and
`halfJoin(c1, c2)` and `halfJoin(c2, c1)`. -/
inductive Tid
  | caller
  | half1
  | half2
  deriving DecidableEq, Repr

/-- Program counter of the caller: `wg.Add(2)`, the two `go` statements,
`wg.Wait()`, and the return. -/
inductive CallerPc
  | wgAdd
  | goHalf1
  | goHalf2
  | wgWait
  | returned
  deriving DecidableEq, Repr

/-- Program counter of a `halfJoin` goroutine: not started yet, `io.Copy`,
the test of `err` (holding the values `io.Copy` returned), then the deferred
calls in reverse order of their `defer` statements: `src.Close()`,
`dst.Close()`, `wg.Done()`. -/
inductive HalfPc
  | notStarted
  | ioCopy
  | checkErr (result : CopyResult)
  | srcClose
  | dstClose
  | wgDone
  | finished
  deriving DecidableEq, Repr

/-- State of one `joinConnections` call.  `wg` is the counter of the
`sync.WaitGroup`; `wgNegative` records a `Done` that would take it below zero
(which panics in Go). -/
structure JoinState where
  wg : Nat
  wgNegative : Bool
  caller : CallerPc
  half1 : HalfPc
  half2 : HalfPc
  trace : List Event
  deriving DecidableEq, Repr

/-- State on entry to `joinConnections`. -/
def JoinState.init : JoinState :=
  JoinState.mk 0 false CallerPc.wgAdd HalfPc.notStarted HalfPc.notStarted []

/-- One step of the closure `halfJoin(dst, src)`: the new program counter,
the events performed, and whether the step is `wg.Done()`.  `io.Copy` is one
step that ends with whatever `env.copy dst src` says (end-of-stream or an
error); a copy that never ends is outside this model. -/
def halfJoin (env : NetEnv) (dst src : Conn) : HalfPc → HalfPc × List Event × Bool
  | HalfPc.notStarted => (HalfPc.notStarted, [], false)
  | HalfPc.ioCopy =>
    (HalfPc.checkErr (env.copy dst src), [Event.copyDone dst src (env.copy dst src)], false)
  | HalfPc.checkErr result =>
    match result.err with
    | some err => (HalfPc.srcClose, [Event.log (LogEntry.copyFailed src dst result.n err)], false)
    | none => (HalfPc.srcClose, [], false)
  | HalfPc.srcClose => (HalfPc.dstClose, [Event.close src], false)
  | HalfPc.dstClose => (HalfPc.wgDone, [Event.close dst], false)
  | HalfPc.wgDone => (HalfPc.finished, [], true)
  | HalfPc.finished => (HalfPc.finished, [], false)

/-- The effect of `wg.Done()` on the counter. -/
def wgDoneStep (s : JoinState) : JoinState :=
  match s.wg with
  | 0 => { s with wgNegative := true }
  | k + 1 => { s with wg := k }

/-- One step of goroutine `t` of `joinConnections(c1, c2)`.  A goroutine that
cannot move (not started, finished, or waiting in `wg.Wait()` on a non-zero
counter) leaves the state unchanged. -/
def JoinState.step (env : NetEnv) (c1 c2 : Conn) (t : Tid) (s : JoinState) : JoinState :=
  match t with
  | Tid.caller =>
    match s.caller with
    | CallerPc.wgAdd => { s with wg := s.wg + 2, caller := CallerPc.goHalf1 }
    | CallerPc.goHalf1 => { s with half1 := HalfPc.ioCopy, caller := CallerPc.goHalf2 }
    | CallerPc.goHalf2 => { s with half2 := HalfPc.ioCopy, caller := CallerPc.wgWait }
    | CallerPc.wgWait =>
      if s.wg = 0 then
        { s with caller := CallerPc.returned, trace := s.trace ++ [Event.joinReturned c1 c2] }
      else s
    | CallerPc.returned => s
  | Tid.half1 =>
    let r := halfJoin env c1 c2 s.half1
    let s1 := { s with half1 := r.1, trace := s.trace ++ r.2.1 }
    if r.2.2 then wgDoneStep s1 else s1
  | Tid.half2 =>
    let r := halfJoin env c2 c1 s.half2
    let s1 := { s with half2 := r.1, trace := s.trace ++ r.2.1 }
    if r.2.2 then wgDoneStep s1 else s1

/-- Run `joinConnections(c1, c2)` from state `s` under a schedule. -/
def JoinState.run (env : NetEnv) (c1 c2 : Conn) (sched : List Tid) (s : JoinState) :
    JoinState :=
  sched.foldl (fun st t => JoinState.step env c1 c2 t st) s

/-- `ProxyServer.joinConnections` under a schedule of its goroutines. -/
def joinConnections (env : NetEnv) (c1 c2 : Conn) (sched : List Tid) : JoinState :=
  JoinState.run env c1 c2 sched JoinState.init

/-- A schedule that gives every goroutine a turn, `k` times over. -/
def roundRobin : Nat → List Tid
  | 0 => []
  | k + 1 => Tid.caller :: Tid.half1 :: Tid.half2 :: roundRobin k

/-- Steps the caller still has to take. -/
def CallerPc.remaining : CallerPc → Nat
  | CallerPc.wgAdd => 4
  | CallerPc.goHalf1 => 3
  | CallerPc.goHalf2 => 2
  | CallerPc.wgWait => 1
  | CallerPc.returned => 0

/-- Steps a `halfJoin` goroutine still has to take. -/
def HalfPc.remaining : HalfPc → Nat
  | HalfPc.notStarted => 5
  | HalfPc.ioCopy => 5
  | HalfPc.checkErr _ => 4
  | HalfPc.srcClose => 3
  | HalfPc.dstClose => 2
  | HalfPc.wgDone => 1
  | HalfPc.finished => 0

/-- Steps the whole call still has to take. -/
def JoinState.remaining (s : JoinState) : Nat :=
  s.caller.remaining + s.half1.remaining + s.half2.remaining

/-- Whether `wg.Done()` is still ahead of a `halfJoin` goroutine. -/
def HalfPc.pending : HalfPc → Nat
  | HalfPc.finished => 0
  | _ => 1

/-- The events a `halfJoin(dst, src)` goroutine has performed by the time it
is at a given program counter. -/
def HalfPc.performed (env : NetEnv) (dst src : Conn) (pc : HalfPc) (tr : List Event) : Prop :=
  match pc with
  | HalfPc.notStarted => True
  | HalfPc.ioCopy => True
  | HalfPc.checkErr result =>
    result = env.copy dst src ∧ Event.copyDone dst src (env.copy dst src) ∈ tr
  | HalfPc.srcClose => Event.copyDone dst src (env.copy dst src) ∈ tr
  | HalfPc.dstClose =>
    Event.copyDone dst src (env.copy dst src) ∈ tr ∧ Event.close src ∈ tr
  | _ =>
    Event.copyDone dst src (env.copy dst src) ∈ tr ∧ Event.close src ∈ tr ∧
      Event.close dst ∈ tr

/-- What holds of a returned call at the point of return: both copies are
over and both connections have had `Close` called. -/
def JoinDone (env : NetEnv) (c1 c2 : Conn) (tr : List Event) : Prop :=
  Event.copyDone c1 c2 (env.copy c1 c2) ∈ tr ∧ Event.copyDone c2 c1 (env.copy c2 c1) ∈ tr ∧
    Event.close c1 ∈ tr ∧ Event.close c2 ∈ tr

/-- How the counter of the `WaitGroup` and the program counters of the two
`halfJoin` goroutines relate at each program counter of the caller. -/
def CallerPc.Ctl (caller : CallerPc) (wg : Nat) (h1 h2 : HalfPc) : Prop :=
  match caller with
  | CallerPc.wgAdd => wg = 0 ∧ h1 = HalfPc.notStarted ∧ h2 = HalfPc.notStarted
  | CallerPc.goHalf1 => wg = 2 ∧ h1 = HalfPc.notStarted ∧ h2 = HalfPc.notStarted
  | CallerPc.goHalf2 => wg = h1.pending + 1 ∧ h1 ≠ HalfPc.notStarted ∧ h2 = HalfPc.notStarted
  | CallerPc.wgWait =>
    wg = h1.pending + h2.pending ∧ h1 ≠ HalfPc.notStarted ∧ h2 ≠ HalfPc.notStarted
  | CallerPc.returned => wg = 0 ∧ h1 = HalfPc.finished ∧ h2 = HalfPc.finished

/-- Invariant of every reachable state of `joinConnections(c1, c2)`. -/
def JoinState.Inv (env : NetEnv) (c1 c2 : Conn) (s : JoinState) : Prop :=
  s.wgNegative = false ∧
  s.caller.Ctl s.wg s.half1 s.half2 ∧
  s.half1.performed env c1 c2 s.trace ∧
  s.half2.performed env c2 c1 s.trace ∧
  (∀ pre post, s.trace = pre ++ Event.joinReturned c1 c2 :: post →
    post = [] ∧ s.caller = CallerPc.returned ∧ JoinDone env c1 c2 pre)

/-! ## Helper lemmas -/

theorem Conn.mem_closes_self (c : Conn) : c ∈ c.closes := by
  cases c <;> simp [Conn.closes]

theorem Conn.mem_closes_tlsServer (c : Conn) (cfg : TlsConfig) :
    c ∈ (Conn.tlsServer c cfg).closes := by
  simp [Conn.closes, Conn.mem_closes_self]

theorem acceptLoop_dispatch_config (lid : Nat) (tlsConfig : Option TlsConfig)
    (accepts : List AcceptResult) (c : Option Conn) (cfg : Option TlsConfig)
    (h : Event.goProxyConnection c cfg ∈ (acceptLoop lid tlsConfig accepts).2) :
    cfg = tlsConfig := by
  induction accepts with
  | nil => simp [acceptLoop] at h
  | cons r rest ih =>
    unfold acceptLoop at h
    split at h
    · split at h
      · simp at h
      · split at h
        · simp at h
          exact ih h
        · simp at h
    · simp at h
      rcases h with h | h
      · exact h.2
      · exact ih h

theorem acceptLoop_dispatches (lid : Nat) (tlsConfig : Option TlsConfig)
    (pre : List AcceptResult) (c : Conn) (post : List AcceptResult)
    (hpre : ∀ r ∈ pre, r.err = none ∨
      ∃ conn e, r.conn = some conn ∧ r.err = some e ∧ isTemporaryNetError e = true) :
    Event.goProxyConnection (some c) tlsConfig ∈
      (acceptLoop lid tlsConfig (pre ++ AcceptResult.mk (some c) none :: post)).2 := by
  induction pre with
  | nil => simp [acceptLoop]
  | cons r pre ih =>
    have ih := ih (fun y hy => hpre y (List.mem_cons_of_mem _ hy))
    rcases hpre r (List.mem_cons_self _ _) with he | ⟨conn, e, hc, he, ht⟩
    · simp only [List.cons_append, acceptLoop, he]
      simp [ih]
    · simp only [List.cons_append, acceptLoop, he, hc, ht, if_true]
      simp [ih]

theorem acceptLoop_dispatched_accepted (lid : Nat) (tlsConfig : Option TlsConfig)
    (accepts : List AcceptResult) (c : Option Conn) (cfg : Option TlsConfig)
    (h : Event.goProxyConnection c cfg ∈ (acceptLoop lid tlsConfig accepts).2) :
    AcceptResult.mk c none ∈ accepts := by
  induction accepts with
  | nil => simp [acceptLoop] at h
  | cons r rest ih =>
    unfold acceptLoop at h
    split at h
    · split at h
      · simp at h
      · split at h
        · simp at h
          exact List.mem_cons_of_mem _ (ih h)
        · simp at h
    · rename_i he
      simp at h
      rcases h with h | h
      · have hr : r = AcceptResult.mk c none := by
          cases r
          simp_all
        rw [hr]
        exact List.mem_cons_self _ _
      · exact List.mem_cons_of_mem _ (ih h)

theorem errorHandler_calls_pos (script : List MuxError) :
    1 ≤ nextErrorCalls (errorHandler script).2 := by
  cases script with
  | nil => simp [errorHandler, nextErrorCalls]
  | cons r rest =>
    unfold errorHandler
    split
    · split <;> simp [nextErrorCalls]
    · simp [nextErrorCalls]

theorem errorHandler_continue (r : MuxError) (rest : List MuxError)
    (h : ¬ (r.conn = none ∧ isVhostClosed r.err = true)) :
    (errorHandler (r :: rest)).1 = (errorHandler rest).1 ∧
      nextErrorCalls (errorHandler (r :: rest)).2 =
        nextErrorCalls (errorHandler rest).2 + 1 := by
  cases hc : r.conn with
  | some c => simp [errorHandler, hc, nextErrorCalls, Nat.add_comm]
  | none =>
    have he : isVhostClosed r.err = false := by
      cases h' : isVhostClosed r.err
      · rfl
      · exact absurd ⟨hc, h'⟩ h
    simp [errorHandler, hc, he, nextErrorCalls, Nat.add_comm]

/-! ## `proxyConnection` -/

/-- C1 (the code at the failing input): in terminate mode, when
`tlsc.Handshake()` fails and the dial succeeds, `proxyConnection` still dials
`localhost:80` and still calls `joinConnections` on the wrapper; the failed
handshake is followed by no `Close` and no return. -/
theorem proxyConnection_handshake_failure_ignored (c upConn : Conn) (cfg : TlsConfig)
    (err : GoError) (copy : Conn → Conn → CopyResult) :
    proxyConnection (NetEnv.mk (fun _ => some err) (fun _ _ _ => DialResult.connected upConn) copy)
        c (some cfg) =
      (none,
        [Event.handshake (Conn.tlsServer c cfg) (some err),
         Event.dial "tcp" "localhost:80" 10000 (DialResult.connected upConn),
         Event.joinConnections (Conn.tlsServer c cfg) upConn]) := by
  simp [proxyConnection, defaultConnectTimeout]

/-- C3: in either mode, when the dial made by `proxyConnection` fails, the
inbound connection is closed, `joinConnections` is not called, no copy is
made, and exactly one dial was attempted. -/
theorem proxyConnection_dial_failure (env : NetEnv) (c : Conn) (tlsConfig : Option TlsConfig)
    (network address : String) (timeoutMs : Nat) (err : GoError)
    (h : Event.dial network address timeoutMs (DialResult.failed err) ∈
      (proxyConnection env c tlsConfig).2) :
    c ∈ closedConns (proxyConnection env c tlsConfig).2 ∧
      joinCalls (proxyConnection env c tlsConfig).2 = [] ∧
      (∀ dst src result, Event.copyDone dst src result ∉ (proxyConnection env c tlsConfig).2) ∧
      (dialedAddresses (proxyConnection env c tlsConfig).2).length = 1 := by
  cases tlsConfig with
  | none =>
    simp only [proxyConnection] at h ⊢
    cases hd : env.dialTimeout "tcp" "localhost:443" defaultConnectTimeout with
    | connected up => simp [hd] at h
    | failed e =>
      simp [hd, closedConns, joinCalls, dialedAddresses, Conn.mem_closes_self]
  | some cfg =>
    simp only [proxyConnection] at h ⊢
    cases hd : env.dialTimeout "tcp" "localhost:80" defaultConnectTimeout with
    | connected up => simp [hd] at h
    | failed e =>
      simp [hd, closedConns, joinCalls, dialedAddresses, Conn.closes, Conn.mem_closes_self]

/-- C9: in passthrough mode (`tlsConfig` nil), when the dial succeeds, no
TLS handshake is run and `joinConnections` is called exactly once, with the
accepted connection itself and the dialed connection. -/
theorem proxyConnection_passthrough_join (env : NetEnv) (c upConn : Conn)
    (network address : String) (timeoutMs : Nat)
    (h : Event.dial network address timeoutMs (DialResult.connected upConn) ∈
      (proxyConnection env c none).2) :
    handshakes (proxyConnection env c none).2 = [] ∧
      joinCalls (proxyConnection env c none).2 = [(c, upConn)] := by
  simp only [proxyConnection] at h ⊢
  cases hd : env.dialTimeout "tcp" "localhost:443" defaultConnectTimeout with
  | failed e => simp [hd] at h
  | connected up =>
    simp [hd] at h
    simp [hd, handshakes, joinCalls, h.2.2.2]

/-- C2: the backend address is a function of the registered mode alone.
Every connection that `Accept` yields on the listener of a frontend added with
`addFrontend(name, passthrough)`, at any position the loop reaches, is handed
to `proxyConnection` with the configuration fixed at registration; only
connections that `Accept` yielded are handed over; and each such
`proxyConnection` dials exactly one address, `localhost:443` when
`passthrough` and `localhost:80` otherwise. -/
theorem addFrontend_backend_by_mode (env : NetEnv) (s : ProxyServer) (name : String)
    (passthrough : Bool) :
    (∀ g c cfg, g ∈ (addFrontend s name passthrough).2 →
        Event.goProxyConnection (some c) cfg ∈ (runFrontend g.name g.tlsConfig g.l).2 →
        AcceptResult.mk (some c) none ∈ g.l.accepts ∧
          dialedAddresses (proxyConnection env c cfg).2 =
            [if passthrough then "localhost:443" else "localhost:80"]) ∧
      (∀ fl pre c post, s.muxListen name = ListenResult.listening fl →
        fl.accepts = pre ++ AcceptResult.mk (some c) none :: post →
        (∀ r ∈ pre, r.err = none ∨
          ∃ conn e, r.conn = some conn ∧ r.err = some e ∧ isTemporaryNetError e = true) →
        ∃ g, (addFrontend s name passthrough).2 = [g] ∧ g.l = fl ∧
          Event.goProxyConnection (some c) g.tlsConfig ∈
            (runFrontend g.name g.tlsConfig g.l).2 ∧
          dialedAddresses (proxyConnection env c g.tlsConfig).2 =
            [if passthrough then "localhost:443" else "localhost:80"]) := by
  have hdial : ∀ g c, g ∈ (addFrontend s name passthrough).2 →
      dialedAddresses (proxyConnection env c g.tlsConfig).2 =
        [if passthrough then "localhost:443" else "localhost:80"] := by
    intro g c hg
    unfold addFrontend at hg
    cases hl : s.muxListen name with
    | failed e => simp [hl] at hg
    | listening fl =>
      cases passthrough with
      | true =>
        simp [hl] at hg
        subst hg
        simp only [proxyConnection]
        cases env.dialTimeout "tcp" "localhost:443" defaultConnectTimeout <;>
          simp [dialedAddresses]
      | false =>
        simp [hl] at hg
        subst hg
        simp only [proxyConnection]
        cases env.dialTimeout "tcp" "localhost:80" defaultConnectTimeout <;>
          simp [dialedAddresses]
  constructor
  · intro g c cfg hg hc
    have hcfg : cfg = g.tlsConfig := acceptLoop_dispatch_config _ _ _ _ _ hc
    subst hcfg
    exact ⟨acceptLoop_dispatched_accepted _ _ _ _ _ hc, hdial g c hg⟩
  · intro fl pre c post hl ha hpre
    have hone : ∃ g, (addFrontend s name passthrough).2 = [g] ∧ g.l = fl := by
      unfold addFrontend
      cases passthrough <;> simp [hl]
    obtain ⟨g, hg, hfl⟩ := hone
    refine ⟨g, hg, hfl, ?_, hdial g c (by simp [hg])⟩
    simp only [runFrontend, hfl, ha]
    exact acceptLoop_dispatches _ _ pre c post hpre

/-- Witness for C3: terminate mode, raw connection 1, a dial that times out. -/
theorem proxyConnection_dial_failure_witness :
    Conn.raw 1 ∈ closedConns (proxyConnection
        (NetEnv.mk (fun _ => none)
          (fun _ _ _ => DialResult.failed (GoError.netError false "i/o timeout"))
          (fun _ _ => CopyResult.mk 0 none))
        (Conn.raw 1) (some (TlsConfig.mk 0 ["http/1.1"]))).2 ∧
      joinCalls (proxyConnection
        (NetEnv.mk (fun _ => none)
          (fun _ _ _ => DialResult.failed (GoError.netError false "i/o timeout"))
          (fun _ _ => CopyResult.mk 0 none))
        (Conn.raw 1) (some (TlsConfig.mk 0 ["http/1.1"]))).2 = [] :=
  have h := proxyConnection_dial_failure
    (NetEnv.mk (fun _ => none)
      (fun _ _ _ => DialResult.failed (GoError.netError false "i/o timeout"))
      (fun _ _ => CopyResult.mk 0 none))
    (Conn.raw 1) (some (TlsConfig.mk 0 ["http/1.1"])) "tcp" "localhost:80" 10000
    (GoError.netError false "i/o timeout")
    (by simp [proxyConnection, defaultConnectTimeout])
  ⟨h.1, h.2.1⟩

/-- Witness for C9: raw connection 1, backend connection 2. -/
theorem proxyConnection_passthrough_join_witness :
    joinCalls (proxyConnection
        (NetEnv.mk (fun _ => none) (fun _ _ _ => DialResult.connected (Conn.raw 2))
          (fun _ _ => CopyResult.mk 0 none))
        (Conn.raw 1) none).2 = [(Conn.raw 1, Conn.raw 2)] :=
  (proxyConnection_passthrough_join
    (NetEnv.mk (fun _ => none) (fun _ _ _ => DialResult.connected (Conn.raw 2))
      (fun _ _ => CopyResult.mk 0 none))
    (Conn.raw 1) (Conn.raw 2) "tcp" "localhost:443" 10000
    (by simp [proxyConnection, defaultConnectTimeout])).2

/-- Witness for C2: a passthrough frontend whose listener yields connection
1, then a temporary error, then connection 2: connection 2 is dispatched and
its handler dials `localhost:443`; and a terminate frontend, whose handler
for connection 1 dials `localhost:80`. -/
theorem addFrontend_backend_by_mode_witness :
    (∃ g : GoRunFrontend,
        Event.goProxyConnection (some (Conn.raw 2)) g.tlsConfig ∈
          (runFrontend g.name g.tlsConfig g.l).2 ∧
        dialedAddresses (proxyConnection
          (NetEnv.mk (fun _ => none) (fun _ _ _ => DialResult.connected (Conn.raw 3))
            (fun _ _ => CopyResult.mk 0 none))
          (Conn.raw 2) g.tlsConfig).2 = ["localhost:443"]) ∧
      dialedAddresses (proxyConnection
        (NetEnv.mk (fun _ => none) (fun _ _ _ => DialResult.connected (Conn.raw 3))
          (fun _ _ => CopyResult.mk 0 none))
        (Conn.raw 1) (some (TlsConfig.mk 0 ["http/1.1"]))).2 = ["localhost:80"] :=
  ⟨(((addFrontend_backend_by_mode
      (NetEnv.mk (fun _ => none) (fun _ _ _ => DialResult.connected (Conn.raw 3))
        (fun _ _ => CopyResult.mk 0 none))
      (ProxyServer.mk 0
        (fun _ => ListenResult.listening (Listener.mk 5
          [AcceptResult.mk (some (Conn.raw 1)) none,
           AcceptResult.mk (some (Conn.raw 9)) (some (GoError.netError true "timeout")),
           AcceptResult.mk (some (Conn.raw 2)) none])))
      "b.example.com" true).2
      (Listener.mk 5
        [AcceptResult.mk (some (Conn.raw 1)) none,
         AcceptResult.mk (some (Conn.raw 9)) (some (GoError.netError true "timeout")),
         AcceptResult.mk (some (Conn.raw 2)) none])
      [AcceptResult.mk (some (Conn.raw 1)) none,
       AcceptResult.mk (some (Conn.raw 9)) (some (GoError.netError true "timeout"))]
      (Conn.raw 2) [] rfl rfl
      (by simp [isTemporaryNetError])).imp (fun _ h => ⟨h.2.2.1, h.2.2.2⟩)),
   ((addFrontend_backend_by_mode
      (NetEnv.mk (fun _ => none) (fun _ _ _ => DialResult.connected (Conn.raw 3))
        (fun _ _ => CopyResult.mk 0 none))
      (ProxyServer.mk 0
        (fun _ => ListenResult.listening (Listener.mk 5 [AcceptResult.mk (some (Conn.raw 1)) none])))
      "a.example.com" false).1
      (GoRunFrontend.mk "a.example.com" (some (TlsConfig.mk 0 ["http/1.1"]))
        (Listener.mk 5 [AcceptResult.mk (some (Conn.raw 1)) none]))
      (Conn.raw 1) (some (TlsConfig.mk 0 ["http/1.1"]))
      (by simp [addFrontend])
      (by simp [runFrontend, acceptLoop])).2⟩

/-! ## `runFrontend` -/

/-- C5 (the code at the failing input): `Accept` answers a temporary error
with a nil connection, then would yield connection 7.  The loop panics on the
first answer: connection 7 is never accepted nor dispatched. -/
theorem runFrontend_temporary_error_panics :
    runFrontend "a.example.com" none
        (Listener.mk 1
          [AcceptResult.mk none (some (GoError.netError true "too many open files")),
           AcceptResult.mk (some (Conn.raw 7)) none]) =
      (LoopEnd.panicked, [Event.acceptCall 1]) := by
  simp [runFrontend, acceptLoop]

/-- C10 (the code at the failing input): whenever `Accept` answers an error
with a nil connection, the error branch of `runFrontend` dereferences the nil
connection and panics before it logs or classifies the error. -/
theorem runFrontend_error_branch_nil_conn (name : String) (tlsConfig : Option TlsConfig)
    (lid : Nat) (err : GoError) (rest : List AcceptResult) :
    runFrontend name tlsConfig (Listener.mk lid (AcceptResult.mk none (some err) :: rest)) =
      (LoopEnd.panicked, [Event.acceptCall lid]) := by
  simp [runFrontend, acceptLoop]

/-! ## `addFrontend` -/

/-- C6: `addFrontend` returns an error exactly when `Listen(name)` does; it
then returns that error and starts no goroutine.  When `Listen(name)` gives a
listener it returns nil and starts exactly one `runFrontend`, on that
listener. -/
theorem addFrontend_listen (s : ProxyServer) (name : String) (passthrough : Bool) :
    ((addFrontend s name passthrough).1 ≠ none ↔
        ∃ err, s.muxListen name = ListenResult.failed err) ∧
      (∀ err, s.muxListen name = ListenResult.failed err →
        addFrontend s name passthrough = (some err, [])) ∧
      (∀ fl, s.muxListen name = ListenResult.listening fl →
        (addFrontend s name passthrough).1 = none ∧
          ∃ cfg, (addFrontend s name passthrough).2 = [GoRunFrontend.mk name cfg fl]) := by
  unfold addFrontend
  cases hl : s.muxListen name with
  | failed e => simp
  | listening fl => cases passthrough <;> simp

/-- Witness for C6: a muxer that rejects every name. -/
theorem addFrontend_listen_witness :
    addFrontend (ProxyServer.mk 0 (fun _ => ListenResult.failed (GoError.other "rejected")))
        "a.example.com" true = (some (GoError.other "rejected"), []) :=
  (addFrontend_listen (ProxyServer.mk 0 (fun _ => ListenResult.failed (GoError.other "rejected")))
    "a.example.com" true).2.1 (GoError.other "rejected") rfl

/-! ## The error handler of `Run` -/

/-- The loop of the error handler leaves at the first answer that has a nil
connection and the closed error, and not before. -/
theorem errorHandler_exit_guarded (pre : List MuxError) (r : MuxError) (post : List MuxError)
    (hpre : ∀ x ∈ pre, ¬ (x.conn = none ∧ isVhostClosed x.err = true)) :
    (r.conn = none ∧ isVhostClosed r.err = true →
        (errorHandler (pre ++ r :: post)).1 = LoopEnd.returned ∧
          nextErrorCalls (errorHandler (pre ++ r :: post)).2 = pre.length + 1) ∧
      (¬ (r.conn = none ∧ isVhostClosed r.err = true) →
        pre.length + 2 ≤ nextErrorCalls (errorHandler (pre ++ r :: post)).2) := by
  induction pre with
  | nil =>
    constructor
    · rintro ⟨hc, he⟩
      simp [errorHandler, hc, he, nextErrorCalls]
    · intro hn
      have h1 := (errorHandler_continue r post hn).2
      have h2 := errorHandler_calls_pos post
      simp only [List.nil_append, List.length_nil]
      omega
  | cons x pre ih =>
    have hx := hpre x (List.mem_cons_self _ _)
    have ih := ih (fun y hy => hpre y (List.mem_cons_of_mem _ hy))
    have hstep := errorHandler_continue x (pre ++ r :: post) hx
    simp only [List.cons_append, List.length_cons]
    constructor
    · intro h
      have h1 := ih.1 h
      exact ⟨hstep.1.trans h1.1, by omega⟩
    · intro h
      have h1 := ih.2 h
      omega

/-- C7: the loop that drains `NextError` stops exactly when `NextError`
yields the closed error.  For every answer `(conn, err)` of the muxer, with
or without a connection, reached by the loop: if `err` is `vhost.Closed` the
loop returns there, without a further `NextError` call; if it is not, the
loop calls `NextError` again. -/
theorem errorHandler_stops_on_closed (pre : List MuxError) (r : MuxError)
    (post : List MuxError) (hmux : r.fromMuxer = true)
    (hpre : ∀ x ∈ pre, isVhostClosed x.err = false) :
    (isVhostClosed r.err = true →
        (errorHandler (pre ++ r :: post)).1 = LoopEnd.returned ∧
          nextErrorCalls (errorHandler (pre ++ r :: post)).2 = pre.length + 1) ∧
      (isVhostClosed r.err = false →
        pre.length + 2 ≤ nextErrorCalls (errorHandler (pre ++ r :: post)).2) := by
  have hg := errorHandler_exit_guarded pre r post (fun x hx h => by
    have := hpre x hx
    simp [h.2] at this)
  constructor
  · intro hc
    apply hg.1
    refine ⟨?_, hc⟩
    simpa [MuxError.fromMuxer, hc] using hmux
  · intro hc
    apply hg.2
    intro h
    simp [hc] at h

/-- Witness for C7: an unknown host with its connection, an accept failure
without one, then the closed error: the loop returns at the third answer,
after three `NextError` calls; and after a bad request that carries a
connection the loop calls `NextError` again. -/
theorem errorHandler_stops_on_closed_witness :
    ((errorHandler
        ([MuxError.mk (some (Conn.raw 1)) (some (GoError.vhostNotFound "no such host")),
          MuxError.mk none (some (GoError.other "accept failed"))] ++
          MuxError.mk none (some (GoError.vhostClosed "closed")) ::
            [MuxError.mk none (some (GoError.other "never read"))])).1 = LoopEnd.returned ∧
      nextErrorCalls (errorHandler
        ([MuxError.mk (some (Conn.raw 1)) (some (GoError.vhostNotFound "no such host")),
          MuxError.mk none (some (GoError.other "accept failed"))] ++
          MuxError.mk none (some (GoError.vhostClosed "closed")) ::
            [MuxError.mk none (some (GoError.other "never read"))])).2 = 2 + 1) ∧
      0 + 2 ≤ nextErrorCalls (errorHandler
        ([] ++ MuxError.mk (some (Conn.raw 4)) (some (GoError.vhostBadRequest "not tls")) ::
          [])).2 :=
  ⟨(errorHandler_stops_on_closed
      [MuxError.mk (some (Conn.raw 1)) (some (GoError.vhostNotFound "no such host")),
       MuxError.mk none (some (GoError.other "accept failed"))]
      (MuxError.mk none (some (GoError.vhostClosed "closed")))
      [MuxError.mk none (some (GoError.other "never read"))]
      (by simp [MuxError.fromMuxer, isVhostClosed])
      (by simp [isVhostClosed])).1 (by simp [isVhostClosed]),
   (errorHandler_stops_on_closed []
      (MuxError.mk (some (Conn.raw 4)) (some (GoError.vhostBadRequest "not tls"))) []
      (by simp [MuxError.fromMuxer, isVhostClosed])
      (by simp)).2 (by simp [isVhostClosed])⟩

/-- C8 (the code at the failing input): an answer of `NextError` that carries
a connection goes through the loop body without any log entry: the events of
that iteration are the `NextError` call alone. -/
theorem errorHandler_conn_not_logged (c : Conn) (err : Option GoError) (rest : List MuxError) :
    errorHandler (MuxError.mk (some c) err :: rest) =
        ((errorHandler rest).1, Event.nextErrorCall :: (errorHandler rest).2) ∧
      logEntries (errorHandler (MuxError.mk (some c) err :: rest)).2 =
        logEntries (errorHandler rest).2 := by
  simp [errorHandler, logEntries]

/-! ## `joinConnections` -/

theorem append_singleton_eq_append_cons {α : Type} (tr pre post : List α) (e x : α)
    (h : tr ++ [e] = pre ++ x :: post) :
    (post = [] ∧ e = x ∧ pre = tr) ∨ ∃ post', post = post' ++ [e] ∧ tr = pre ++ x :: post' := by
  rcases List.eq_nil_or_concat post with hp | ⟨post', e', hp⟩
  · subst hp
    left
    have h' : tr ++ [e] = pre ++ [x] := h
    have h2 := List.append_inj' h' rfl
    exact ⟨rfl, by simpa using h2.2, h2.1.symm⟩
  · subst hp
    right
    have h' : tr ++ [e] = (pre ++ x :: post') ++ [e'] := by
      simpa [List.concat_eq_append] using h
    have h2 := List.append_inj' h' rfl
    refine ⟨post', ?_, h2.1⟩
    have h3 : e = e' := by simpa using h2.2
    simp [List.concat_eq_append, h3]

theorem HalfPc.performed_append (env : NetEnv) (dst src : Conn) (pc : HalfPc)
    (tr evs : List Event) (h : pc.performed env dst src tr) :
    pc.performed env dst src (tr ++ evs) := by
  cases pc <;> simp_all [HalfPc.performed]

theorem halfJoin_performed (env : NetEnv) (dst src : Conn) (pc : HalfPc) (tr : List Event)
    (h : pc.performed env dst src tr) :
    (halfJoin env dst src pc).1.performed env dst src (tr ++ (halfJoin env dst src pc).2.1) := by
  cases pc with
  | checkErr result =>
    cases hr : result.err <;> simp_all [HalfPc.performed, halfJoin]
  | _ => simp_all [HalfPc.performed, halfJoin]

theorem halfJoin_events (env : NetEnv) (dst src : Conn) (pc : HalfPc) :
    (halfJoin env dst src pc).2.1 = [] ∨
      ∃ e, (halfJoin env dst src pc).2.1 = [e] ∧ ∀ a b, e ≠ Event.joinReturned a b := by
  cases pc with
  | checkErr result => cases hr : result.err <;> simp [halfJoin, hr]
  | _ => simp [halfJoin]

theorem JoinState.Inv_init (env : NetEnv) (c1 c2 : Conn) :
    JoinState.Inv env c1 c2 JoinState.init := by
  simp [JoinState.Inv, JoinState.init, HalfPc.performed, CallerPc.Ctl]

theorem HalfPc.performed_finished (env : NetEnv) (dst src : Conn) (tr : List Event)
    (h : HalfPc.finished.performed env dst src tr) :
    Event.copyDone dst src (env.copy dst src) ∈ tr ∧ Event.close src ∈ tr ∧
      Event.close dst ∈ tr := h

theorem HalfPc.pending_eq_zero (pc : HalfPc) (h : pc.pending = 0) : pc = HalfPc.finished := by
  cases pc <;> simp_all [HalfPc.pending]

theorem JoinState.Inv_step_caller (env : NetEnv) (c1 c2 : Conn) (s : JoinState)
    (h : JoinState.Inv env c1 c2 s) :
    JoinState.Inv env c1 c2 (JoinState.step env c1 c2 Tid.caller s) := by
  obtain ⟨wg, neg, caller, h1, h2, tr⟩ := s
  obtain ⟨hneg, hctl, hp1, hp2, htr⟩ := h
  cases caller with
  | wgAdd =>
    refine ⟨hneg, ?_, hp1, hp2, ?_⟩
    · simpa [JoinState.step, CallerPc.Ctl] using hctl
    · intro pre post hpp
      have := (htr pre post hpp).2.1
      simp at this
  | goHalf1 =>
    simp only [CallerPc.Ctl] at hctl
    obtain ⟨hw, hh1, hh2⟩ := hctl
    subst hh1
    refine ⟨hneg, ?_, trivial, hp2, ?_⟩
    · simp [JoinState.step, CallerPc.Ctl, hw, hh2, HalfPc.pending]
    · intro pre post hpp
      have := (htr pre post hpp).2.1
      simp at this
  | goHalf2 =>
    simp only [CallerPc.Ctl] at hctl
    obtain ⟨hw, hh1, hh2⟩ := hctl
    subst hh2
    refine ⟨hneg, ?_, hp1, trivial, ?_⟩
    · simp [JoinState.step, CallerPc.Ctl, hw, hh1, HalfPc.pending]
    · intro pre post hpp
      have := (htr pre post hpp).2.1
      simp at this
  | wgWait =>
    simp only [CallerPc.Ctl] at hctl
    obtain ⟨hw, hh1, hh2⟩ := hctl
    by_cases hz : wg = 0
    · have hf1 : h1 = HalfPc.finished := HalfPc.pending_eq_zero h1 (by omega)
      have hf2 : h2 = HalfPc.finished := HalfPc.pending_eq_zero h2 (by omega)
      subst hf1 hf2
      have d1 := HalfPc.performed_finished env c1 c2 tr hp1
      have d2 := HalfPc.performed_finished env c2 c1 tr hp2
      simp only [JoinState.step, hz, if_true]
      refine ⟨hneg, ⟨rfl, rfl, rfl⟩, HalfPc.performed_append env c1 c2 _ tr _ hp1,
        HalfPc.performed_append env c2 c1 _ tr _ hp2, ?_⟩
      intro pre post hpp
      rcases append_singleton_eq_append_cons tr pre post _ _ hpp with ⟨hp, _, hpre⟩ | ⟨post', _, ht⟩
      · subst hpre
        exact ⟨hp, rfl, d1.1, d2.1, d1.2.2, d2.2.2⟩
      · have := (htr pre post' ht).2.1
        simp at this
    · simp only [JoinState.step, hz, if_false]
      exact ⟨hneg, ⟨hw, hh1, hh2⟩, hp1, hp2, htr⟩
  | returned => exact ⟨hneg, hctl, hp1, hp2, htr⟩

theorem joinReturned_not_yet (env : NetEnv) (c1 c2 : Conn) (caller : CallerPc)
    (tr evs : List Event)
    (htr : ∀ pre post, tr = pre ++ Event.joinReturned c1 c2 :: post →
      post = [] ∧ caller = CallerPc.returned ∧ JoinDone env c1 c2 pre)
    (hnr : caller ≠ CallerPc.returned)
    (hev : evs = [] ∨ ∃ e, evs = [e] ∧ ∀ a b, e ≠ Event.joinReturned a b) :
    ∀ pre post, tr ++ evs = pre ++ Event.joinReturned c1 c2 :: post →
      post = [] ∧ caller = CallerPc.returned ∧ JoinDone env c1 c2 pre := by
  intro pre post hpp
  rcases hev with hnil | ⟨e, he, hne⟩
  · subst hnil
    exact htr pre post (by simpa using hpp)
  · subst he
    rcases append_singleton_eq_append_cons tr pre post _ _ hpp with ⟨_, heq, _⟩ | ⟨post', _, ht⟩
    · exact absurd heq (hne c1 c2)
    · exact absurd (htr pre post' ht).2.1 hnr

theorem halfJoin_cases (env : NetEnv) (dst src : Conn) (pc : HalfPc) :
    ((pc = HalfPc.notStarted ∨ pc = HalfPc.finished) ∧
        halfJoin env dst src pc = (pc, [], false)) ∨
      (pc = HalfPc.wgDone ∧ halfJoin env dst src pc = (HalfPc.finished, [], true)) ∨
      (pc ≠ HalfPc.notStarted ∧ pc.pending = 1 ∧
        (halfJoin env dst src pc).1 ≠ HalfPc.notStarted ∧
        (halfJoin env dst src pc).1.pending = 1 ∧
        (halfJoin env dst src pc).2.2 = false ∧
        (halfJoin env dst src pc).1.remaining + 1 = pc.remaining) := by
  cases pc with
  | checkErr result =>
    cases hr : result.err <;> simp [halfJoin, hr, HalfPc.pending, HalfPc.remaining]
  | _ => simp [halfJoin, HalfPc.pending, HalfPc.remaining]

theorem CallerPc.Ctl_advance1 (caller : CallerPc) (wg : Nat) (h1 h1' h2 : HalfPc)
    (h : caller.Ctl wg h1 h2) (hs : h1 ≠ HalfPc.notStarted) (hp : h1.pending = 1)
    (hs' : h1' ≠ HalfPc.notStarted) (hp' : h1'.pending = 1) :
    caller.Ctl wg h1' h2 ∧ caller ≠ CallerPc.returned := by
  cases caller <;> simp_all [CallerPc.Ctl, HalfPc.pending]

theorem CallerPc.Ctl_advance2 (caller : CallerPc) (wg : Nat) (h1 h2 h2' : HalfPc)
    (h : caller.Ctl wg h1 h2) (hs : h2 ≠ HalfPc.notStarted) (hp : h2.pending = 1)
    (hs' : h2' ≠ HalfPc.notStarted) (hp' : h2'.pending = 1) :
    caller.Ctl wg h1 h2' ∧ caller ≠ CallerPc.returned := by
  cases caller <;> simp_all [CallerPc.Ctl, HalfPc.pending]

theorem CallerPc.Ctl_done1 (caller : CallerPc) (wg : Nat) (h2 : HalfPc)
    (h : caller.Ctl wg HalfPc.wgDone h2) :
    ∃ k, wg = k + 1 ∧ caller.Ctl k HalfPc.finished h2 := by
  cases caller with
  | goHalf2 => exact ⟨1, by simp_all [CallerPc.Ctl, HalfPc.pending]⟩
  | wgWait =>
    refine ⟨h2.pending, ?_⟩
    simp_all [CallerPc.Ctl, HalfPc.pending]
    omega
  | _ => simp_all [CallerPc.Ctl]

theorem CallerPc.Ctl_done2 (caller : CallerPc) (wg : Nat) (h1 : HalfPc)
    (h : caller.Ctl wg h1 HalfPc.wgDone) :
    ∃ k, wg = k + 1 ∧ caller.Ctl k h1 HalfPc.finished := by
  cases caller with
  | wgWait =>
    refine ⟨h1.pending, ?_⟩
    simp_all [CallerPc.Ctl, HalfPc.pending]
  | _ => simp_all [CallerPc.Ctl]

theorem JoinState.Inv_step_half1 (env : NetEnv) (c1 c2 : Conn) (s : JoinState)
    (h : JoinState.Inv env c1 c2 s) :
    JoinState.Inv env c1 c2 (JoinState.step env c1 c2 Tid.half1 s) := by
  obtain ⟨wg, neg, caller, h1, h2, tr⟩ := s
  obtain ⟨hneg, hctl, hp1, hp2, htr⟩ := h
  simp only at hneg hctl hp1 hp2 htr
  rcases halfJoin_cases env c1 c2 h1 with ⟨_, he⟩ | ⟨hpc, he⟩ | ⟨hs, hp, hs', hp', hd, _⟩
  · have hstep : JoinState.step env c1 c2 Tid.half1 (JoinState.mk wg neg caller h1 h2 tr) =
        JoinState.mk wg neg caller h1 h2 tr := by
      simp [JoinState.step, he]
    rw [hstep]
    exact ⟨hneg, hctl, hp1, hp2, htr⟩
  · subst hpc
    obtain ⟨k, hk, hctl'⟩ := CallerPc.Ctl_done1 caller wg h2 hctl
    have hstep : JoinState.step env c1 c2 Tid.half1
        (JoinState.mk wg neg caller HalfPc.wgDone h2 tr) =
        JoinState.mk k neg caller HalfPc.finished h2 tr := by
      simp [JoinState.step, he, wgDoneStep, hk]
    rw [hstep]
    exact ⟨hneg, hctl', hp1, hp2, htr⟩
  · have hadv := CallerPc.Ctl_advance1 caller wg h1 _ h2 hctl hs hp hs' hp'
    have hstep : JoinState.step env c1 c2 Tid.half1 (JoinState.mk wg neg caller h1 h2 tr) =
        JoinState.mk wg neg caller (halfJoin env c1 c2 h1).1 h2
          (tr ++ (halfJoin env c1 c2 h1).2.1) := by
      simp [JoinState.step, hd]
    rw [hstep]
    exact ⟨hneg, hadv.1, halfJoin_performed env c1 c2 h1 tr hp1,
      HalfPc.performed_append env c2 c1 h2 tr _ hp2,
      joinReturned_not_yet env c1 c2 caller tr _ htr hadv.2 (halfJoin_events env c1 c2 h1)⟩

theorem JoinState.Inv_step_half2 (env : NetEnv) (c1 c2 : Conn) (s : JoinState)
    (h : JoinState.Inv env c1 c2 s) :
    JoinState.Inv env c1 c2 (JoinState.step env c1 c2 Tid.half2 s) := by
  obtain ⟨wg, neg, caller, h1, h2, tr⟩ := s
  obtain ⟨hneg, hctl, hp1, hp2, htr⟩ := h
  simp only at hneg hctl hp1 hp2 htr
  rcases halfJoin_cases env c2 c1 h2 with ⟨_, he⟩ | ⟨hpc, he⟩ | ⟨hs, hp, hs', hp', hd, _⟩
  · have hstep : JoinState.step env c1 c2 Tid.half2 (JoinState.mk wg neg caller h1 h2 tr) =
        JoinState.mk wg neg caller h1 h2 tr := by
      simp [JoinState.step, he]
    rw [hstep]
    exact ⟨hneg, hctl, hp1, hp2, htr⟩
  · subst hpc
    obtain ⟨k, hk, hctl'⟩ := CallerPc.Ctl_done2 caller wg h1 hctl
    have hstep : JoinState.step env c1 c2 Tid.half2
        (JoinState.mk wg neg caller h1 HalfPc.wgDone tr) =
        JoinState.mk k neg caller h1 HalfPc.finished tr := by
      simp [JoinState.step, he, wgDoneStep, hk]
    rw [hstep]
    exact ⟨hneg, hctl', hp1, hp2, htr⟩
  · have hadv := CallerPc.Ctl_advance2 caller wg h1 h2 _ hctl hs hp hs' hp'
    have hstep : JoinState.step env c1 c2 Tid.half2 (JoinState.mk wg neg caller h1 h2 tr) =
        JoinState.mk wg neg caller h1 (halfJoin env c2 c1 h2).1
          (tr ++ (halfJoin env c2 c1 h2).2.1) := by
      simp [JoinState.step, hd]
    rw [hstep]
    exact ⟨hneg, hadv.1, HalfPc.performed_append env c1 c2 h1 tr _ hp1,
      halfJoin_performed env c2 c1 h2 tr hp2,
      joinReturned_not_yet env c1 c2 caller tr _ htr hadv.2 (halfJoin_events env c2 c1 h2)⟩

theorem JoinState.Inv_step (env : NetEnv) (c1 c2 : Conn) (t : Tid) (s : JoinState)
    (h : JoinState.Inv env c1 c2 s) :
    JoinState.Inv env c1 c2 (JoinState.step env c1 c2 t s) := by
  cases t
  · exact JoinState.Inv_step_caller env c1 c2 s h
  · exact JoinState.Inv_step_half1 env c1 c2 s h
  · exact JoinState.Inv_step_half2 env c1 c2 s h

theorem JoinState.Inv_run (env : NetEnv) (c1 c2 : Conn) (sched : List Tid) (s : JoinState)
    (h : JoinState.Inv env c1 c2 s) :
    JoinState.Inv env c1 c2 (JoinState.run env c1 c2 sched s) := by
  induction sched generalizing s with
  | nil => exact h
  | cons t rest ih => exact ih _ (JoinState.Inv_step env c1 c2 t s h)

theorem JoinState.run_append (env : NetEnv) (c1 c2 : Conn) (a b : List Tid) (s : JoinState) :
    JoinState.run env c1 c2 (a ++ b) s = JoinState.run env c1 c2 b (JoinState.run env c1 c2 a s) := by
  simp [JoinState.run, List.foldl_append]

theorem JoinState.returned_event_step (env : NetEnv) (c1 c2 : Conn) (t : Tid) (s : JoinState)
    (h : s.caller = CallerPc.returned → Event.joinReturned c1 c2 ∈ s.trace) :
    (JoinState.step env c1 c2 t s).caller = CallerPc.returned →
      Event.joinReturned c1 c2 ∈ (JoinState.step env c1 c2 t s).trace := by
  obtain ⟨wg, neg, caller, h1, h2, tr⟩ := s
  cases t with
  | caller =>
    cases caller with
    | wgWait =>
      by_cases hz : wg = 0 <;> simp [JoinState.step, hz]
    | returned => simpa [JoinState.step] using h
    | _ => simp [JoinState.step]
  | half1 =>
    intro hc
    have hc' : caller = CallerPc.returned := by
      simp only [JoinState.step] at hc
      split at hc
      · unfold wgDoneStep at hc
        split at hc <;> exact hc
      · exact hc
    have hm := h hc'
    simp only [JoinState.step]
    split
    · unfold wgDoneStep
      split <;> simp_all
    · simp_all
  | half2 =>
    intro hc
    have hc' : caller = CallerPc.returned := by
      simp only [JoinState.step] at hc
      split at hc
      · unfold wgDoneStep at hc
        split at hc <;> exact hc
      · exact hc
    have hm := h hc'
    simp only [JoinState.step]
    split
    · unfold wgDoneStep
      split <;> simp_all
    · simp_all

theorem JoinState.returned_event_run (env : NetEnv) (c1 c2 : Conn) (sched : List Tid)
    (s : JoinState) (h : s.caller = CallerPc.returned → Event.joinReturned c1 c2 ∈ s.trace) :
    (JoinState.run env c1 c2 sched s).caller = CallerPc.returned →
      Event.joinReturned c1 c2 ∈ (JoinState.run env c1 c2 sched s).trace := by
  induction sched generalizing s with
  | nil => exact h
  | cons t rest ih => exact ih _ (JoinState.returned_event_step env c1 c2 t s h)

theorem JoinState.remaining_step_caller (env : NetEnv) (c1 c2 : Conn) (s : JoinState)
    (h : JoinState.Inv env c1 c2 s) :
    (JoinState.step env c1 c2 Tid.caller s).remaining ≤ s.remaining ∧
      (s.caller ≠ CallerPc.returned → (s.caller ≠ CallerPc.wgWait ∨ s.wg = 0) →
        (JoinState.step env c1 c2 Tid.caller s).remaining < s.remaining) := by
  obtain ⟨wg, neg, caller, h1, h2, tr⟩ := s
  obtain ⟨_, hctl, _, _, _⟩ := h
  simp only at hctl
  cases caller with
  | wgWait =>
    by_cases hz : wg = 0 <;>
      simp [JoinState.step, hz, JoinState.remaining, CallerPc.remaining]
  | _ =>
    simp_all [JoinState.step, JoinState.remaining, CallerPc.remaining, CallerPc.Ctl,
      HalfPc.remaining]

theorem JoinState.remaining_step_half1 (env : NetEnv) (c1 c2 : Conn) (s : JoinState) :
    (JoinState.step env c1 c2 Tid.half1 s).remaining ≤ s.remaining ∧
      (s.half1.pending = 1 → s.half1 ≠ HalfPc.notStarted →
        (JoinState.step env c1 c2 Tid.half1 s).remaining < s.remaining) := by
  obtain ⟨wg, neg, caller, h1, h2, tr⟩ := s
  rcases halfJoin_cases env c1 c2 h1 with ⟨hpc, he⟩ | ⟨hpc, he⟩ | ⟨hs, hp, hs', hp', hd, hr⟩
  · have hstep : JoinState.step env c1 c2 Tid.half1 (JoinState.mk wg neg caller h1 h2 tr) =
        JoinState.mk wg neg caller h1 h2 tr := by
      simp [JoinState.step, he]
    rw [hstep]
    rcases hpc with hpc | hpc <;> subst hpc <;> simp [HalfPc.pending]
  · subst hpc
    have hrem : (JoinState.step env c1 c2 Tid.half1
        (JoinState.mk wg neg caller HalfPc.wgDone h2 tr)).remaining =
        caller.remaining + h2.remaining := by
      cases wg <;> simp [JoinState.step, he, wgDoneStep, JoinState.remaining, HalfPc.remaining]
    rw [hrem]
    simp [JoinState.remaining, HalfPc.remaining]
  · have hstep : JoinState.step env c1 c2 Tid.half1 (JoinState.mk wg neg caller h1 h2 tr) =
        JoinState.mk wg neg caller (halfJoin env c1 c2 h1).1 h2
          (tr ++ (halfJoin env c1 c2 h1).2.1) := by
      simp [JoinState.step, hd]
    rw [hstep]
    simp only [JoinState.remaining]
    omega

theorem JoinState.remaining_step_half2 (env : NetEnv) (c1 c2 : Conn) (s : JoinState) :
    (JoinState.step env c1 c2 Tid.half2 s).remaining ≤ s.remaining ∧
      (s.half2.pending = 1 → s.half2 ≠ HalfPc.notStarted →
        (JoinState.step env c1 c2 Tid.half2 s).remaining < s.remaining) := by
  obtain ⟨wg, neg, caller, h1, h2, tr⟩ := s
  rcases halfJoin_cases env c2 c1 h2 with ⟨hpc, he⟩ | ⟨hpc, he⟩ | ⟨hs, hp, hs', hp', hd, hr⟩
  · have hstep : JoinState.step env c1 c2 Tid.half2 (JoinState.mk wg neg caller h1 h2 tr) =
        JoinState.mk wg neg caller h1 h2 tr := by
      simp [JoinState.step, he]
    rw [hstep]
    rcases hpc with hpc | hpc <;> subst hpc <;> simp [HalfPc.pending]
  · subst hpc
    have hrem : (JoinState.step env c1 c2 Tid.half2
        (JoinState.mk wg neg caller h1 HalfPc.wgDone tr)).remaining =
        caller.remaining + h1.remaining := by
      cases wg <;> simp [JoinState.step, he, wgDoneStep, JoinState.remaining, HalfPc.remaining]
    rw [hrem]
    simp [JoinState.remaining, HalfPc.remaining]
  · have hstep : JoinState.step env c1 c2 Tid.half2 (JoinState.mk wg neg caller h1 h2 tr) =
        JoinState.mk wg neg caller h1 (halfJoin env c2 c1 h2).1
          (tr ++ (halfJoin env c2 c1 h2).2.1) := by
      simp [JoinState.step, hd]
    rw [hstep]
    simp only [JoinState.remaining]
    omega

theorem JoinState.step_half1_half2 (env : NetEnv) (c1 c2 : Conn) (s : JoinState) :
    (JoinState.step env c1 c2 Tid.half1 s).half2 = s.half2 := by
  simp only [JoinState.step]
  split
  · unfold wgDoneStep
    split <;> rfl
  · rfl

theorem JoinState.step_caller_waiting (env : NetEnv) (c1 c2 : Conn) (s : JoinState)
    (hc : s.caller = CallerPc.wgWait) (hw : s.wg ≠ 0) :
    JoinState.step env c1 c2 Tid.caller s = s := by
  obtain ⟨wg, neg, caller, h1, h2, tr⟩ := s
  simp only at hc hw
  subst hc
  simp [JoinState.step, hw]

theorem HalfPc.pending_le_one (pc : HalfPc) : pc.pending ≤ 1 := by
  cases pc <;> simp [HalfPc.pending]

theorem JoinState.remaining_round (env : NetEnv) (c1 c2 : Conn) (s : JoinState)
    (h : JoinState.Inv env c1 c2 s) :
    (JoinState.run env c1 c2 [Tid.caller, Tid.half1, Tid.half2] s).remaining ≤ s.remaining ∧
      (s.caller ≠ CallerPc.returned →
        (JoinState.run env c1 c2 [Tid.caller, Tid.half1, Tid.half2] s).remaining <
          s.remaining) := by
  have r1 := JoinState.remaining_step_caller env c1 c2 s h
  have r2 := JoinState.remaining_step_half1 env c1 c2 (JoinState.step env c1 c2 Tid.caller s)
  have r3 := JoinState.remaining_step_half2 env c1 c2
    (JoinState.step env c1 c2 Tid.half1 (JoinState.step env c1 c2 Tid.caller s))
  simp only [JoinState.run, List.foldl]
  refine ⟨by omega, ?_⟩
  intro hnr
  by_cases hen : s.caller ≠ CallerPc.wgWait ∨ s.wg = 0
  · have := r1.2 hnr hen
    omega
  · have hc : s.caller = CallerPc.wgWait := by
      by_contra hc
      exact hen (Or.inl hc)
    have hw : s.wg ≠ 0 := fun hw => hen (Or.inr hw)
    have hs := JoinState.step_caller_waiting env c1 c2 s hc hw
    rw [hs] at r2 r3 ⊢
    have hctl := h.2.1
    rw [hc] at hctl
    simp only [CallerPc.Ctl] at hctl
    obtain ⟨hwg, hn1, hn2⟩ := hctl
    have b1 := HalfPc.pending_le_one s.half1
    have b2 := HalfPc.pending_le_one s.half2
    by_cases hp1 : s.half1.pending = 1
    · have := r2.2 hp1 hn1
      omega
    · have hp2 : s.half2.pending = 1 := by omega
      have hh := JoinState.step_half1_half2 env c1 c2 s
      have := r3.2 (by rw [hh]; exact hp2) (by rw [hh]; exact hn2)
      omega

theorem JoinState.run_roundRobin (env : NetEnv) (c1 c2 : Conn) (k : Nat) (s : JoinState)
    (h : JoinState.Inv env c1 c2 s) (hk : s.remaining ≤ k) :
    (JoinState.run env c1 c2 (roundRobin k) s).caller = CallerPc.returned := by
  induction k generalizing s with
  | zero =>
    have h0 : s.caller.remaining = 0 := by
      simp only [JoinState.remaining] at hk
      omega
    simp only [roundRobin, JoinState.run, List.foldl]
    cases hc : s.caller <;> simp_all [CallerPc.remaining]
  | succ k ih =>
    have hsplit : JoinState.run env c1 c2 (roundRobin (k + 1)) s =
        JoinState.run env c1 c2 (roundRobin k)
          (JoinState.run env c1 c2 [Tid.caller, Tid.half1, Tid.half2] s) := by
      simp [roundRobin, JoinState.run]
    rw [hsplit]
    have hinv := JoinState.Inv_run env c1 c2 [Tid.caller, Tid.half1, Tid.half2] s h
    have hr := JoinState.remaining_round env c1 c2 s h
    apply ih _ hinv
    by_cases hc : s.caller = CallerPc.returned
    · have hctl := h.2.1
      rw [hc] at hctl
      simp only [CallerPc.Ctl] at hctl
      have h0 : s.remaining = 0 := by
        simp [JoinState.remaining, hc, hctl.2.1, hctl.2.2, CallerPc.remaining,
          HalfPc.remaining]
      omega
    · have := hr.2 hc
      omega

theorem JoinState.remaining_run (env : NetEnv) (c1 c2 : Conn) (sched : List Tid)
    (s : JoinState) (h : JoinState.Inv env c1 c2 s) :
    (JoinState.run env c1 c2 sched s).remaining ≤ s.remaining := by
  induction sched generalizing s with
  | nil => exact Nat.le_refl _
  | cons t rest ih =>
    have h1 := ih _ (JoinState.Inv_step env c1 c2 t s h)
    have h2 : (JoinState.step env c1 c2 t s).remaining ≤ s.remaining := by
      cases t
      · exact (JoinState.remaining_step_caller env c1 c2 s h).1
      · exact (JoinState.remaining_step_half1 env c1 c2 s).1
      · exact (JoinState.remaining_step_half2 env c1 c2 s).1
    exact Nat.le_trans h1 h2

/-- C4: under every schedule of its goroutines and whatever the two copies
return, `joinConnections(c1, c2)` returns only after both copies are over and
`Close` has been called on `c1` and on `c2` (every event before the return
includes them, and nothing follows it); and it does return: from any point
reached, fourteen more rounds of a fair schedule bring the caller past
`wg.Wait()`, with the return recorded in the trace. -/
theorem joinConnections_returns_after_both (env : NetEnv) (c1 c2 : Conn) (sched : List Tid) :
    (∀ pre post,
        (joinConnections env c1 c2 sched).trace = pre ++ Event.joinReturned c1 c2 :: post →
          post = [] ∧
            Event.copyDone c1 c2 (env.copy c1 c2) ∈ pre ∧
            Event.copyDone c2 c1 (env.copy c2 c1) ∈ pre ∧
            Event.close c1 ∈ pre ∧ Event.close c2 ∈ pre) ∧
      ((joinConnections env c1 c2 sched).caller = CallerPc.returned →
        (joinConnections env c1 c2 sched).half1 = HalfPc.finished ∧
          (joinConnections env c1 c2 sched).half2 = HalfPc.finished ∧
          (joinConnections env c1 c2 sched).wgNegative = false) ∧
      (joinConnections env c1 c2 (sched ++ roundRobin 14)).caller = CallerPc.returned ∧
      Event.joinReturned c1 c2 ∈ (joinConnections env c1 c2 (sched ++ roundRobin 14)).trace := by
  have hinv := JoinState.Inv_run env c1 c2 sched JoinState.init (JoinState.Inv_init env c1 c2)
  have hrem := JoinState.remaining_run env c1 c2 sched JoinState.init
    (JoinState.Inv_init env c1 c2)
  have hret : (joinConnections env c1 c2 (sched ++ roundRobin 14)).caller =
      CallerPc.returned := by
    simp only [joinConnections, JoinState.run_append]
    apply JoinState.run_roundRobin env c1 c2 14 _ hinv
    have : JoinState.init.remaining = 14 := rfl
    omega
  refine ⟨?_, ?_, hret, ?_⟩
  · intro pre post hpp
    obtain ⟨hp, _, hd⟩ := hinv.2.2.2.2 pre post hpp
    exact ⟨hp, hd⟩
  · intro hc
    have hctl := hinv.2.1
    simp only [joinConnections] at hc
    rw [hc] at hctl
    exact ⟨hctl.2.1, hctl.2.2, hinv.1⟩
  · exact JoinState.returned_event_run env c1 c2 (sched ++ roundRobin 14) JoinState.init
      (by simp [JoinState.init]) hret

/-- Witness for C4: both goroutines run to completion before the caller
resumes, the copy towards connection 1 ending on end-of-stream and the copy
towards connection 2 on an error. -/
theorem joinConnections_returns_after_both_witness :
    Event.close (Conn.raw 1) ∈
        [Event.copyDone (Conn.raw 1) (Conn.raw 2) (CopyResult.mk 3 none),
         Event.close (Conn.raw 2), Event.close (Conn.raw 1),
         Event.copyDone (Conn.raw 2) (Conn.raw 1) (CopyResult.mk 3 (some (GoError.other "reset"))),
         Event.log (LogEntry.copyFailed (Conn.raw 1) (Conn.raw 2) 3 (GoError.other "reset")),
         Event.close (Conn.raw 1), Event.close (Conn.raw 2)] ∧
      Event.close (Conn.raw 2) ∈
        [Event.copyDone (Conn.raw 1) (Conn.raw 2) (CopyResult.mk 3 none),
         Event.close (Conn.raw 2), Event.close (Conn.raw 1),
         Event.copyDone (Conn.raw 2) (Conn.raw 1) (CopyResult.mk 3 (some (GoError.other "reset"))),
         Event.log (LogEntry.copyFailed (Conn.raw 1) (Conn.raw 2) 3 (GoError.other "reset")),
         Event.close (Conn.raw 1), Event.close (Conn.raw 2)] :=
  ((joinConnections_returns_after_both
    (NetEnv.mk (fun _ => none) (fun _ _ _ => DialResult.connected (Conn.raw 2))
      (fun dst _ => CopyResult.mk 3
        (if dst = Conn.raw 1 then none else some (GoError.other "reset"))))
    (Conn.raw 1) (Conn.raw 2)
    [Tid.caller, Tid.caller, Tid.caller,
     Tid.half1, Tid.half1, Tid.half1, Tid.half1, Tid.half1,
     Tid.half2, Tid.half2, Tid.half2, Tid.half2, Tid.half2,
     Tid.caller]).1
    [Event.copyDone (Conn.raw 1) (Conn.raw 2) (CopyResult.mk 3 none),
     Event.close (Conn.raw 2), Event.close (Conn.raw 1),
     Event.copyDone (Conn.raw 2) (Conn.raw 1) (CopyResult.mk 3 (some (GoError.other "reset"))),
     Event.log (LogEntry.copyFailed (Conn.raw 1) (Conn.raw 2) 3 (GoError.other "reset")),
     Event.close (Conn.raw 1), Event.close (Conn.raw 2)]
    []
    (by simp [joinConnections, JoinState.run, JoinState.step, JoinState.init, halfJoin,
      wgDoneStep])).2.2.2

end AcmeProxy
